import Mathlib

/-!
# scullv memory mapping: `src/scullv/mmap.c`

A shallow embedding of the four functions of `mmap.c`
(`scullv_vma_open`, `scullv_vma_close`, `scullv_vma_fault`, `scullv_mmap`)
as state-passing functions, followed by the properties of the demand-paging
core proved about them.

Conventions of the embedding

* A `void *` is a natural number, `0` being `NULL`.
* A null-terminated chain `dev -> dev->next -> ... -> NULL` is a list of nodes;
  the pointer `ptr` of the walk is the suffix of the chain that starts at the
  node it points to, and the empty list is `NULL`.
* `pgoff_t` is unsigned; the only subtraction (`pgoff -= dev->qset`) happens
  under the guard `pgoff >= dev->qset`, so it never wraps and truncated
  subtraction on `Nat` is exact.
* Reading `ptr->data[pgoff]` outside the array is undefined in C; the
  embedding returns `none` for the whole call in that case.
* The open count `vmas` is a C `int`: 32 bits, two's complement, and `++` and
  `--` wrap around at `INT_MAX` and `INT_MIN` (`c_int`, `wrap_int`).
* The counter of the semaphore and the reference count of a page belong to
  the kernel primitives `down`, `up` and `get_page`; they are integers without
  a width.
* Every call also returns the list of the events it performed (semaphore
  operations, reads of the device, hops of the walk); this list is ghost
  state used to speak about the order of operations.
-/

namespace Scullv

/-! ## Data model -/

/-- The largest value of a C `int` (32 bits). -/
def INT_MAX : Int := 2147483647

/-- The smallest value of a C `int` (32 bits). -/
def INT_MIN : Int := -2147483648

/-- The value an `int` holds after an arithmetic result `x` is stored in it:
`x` reduced modulo `2^32` into `INT_MIN .. INT_MAX` (two's complement
wrap-around). -/
def wrap_int (x : Int) : Int := (x + 2147483648) % 4294967296 - 2147483648

/-- A C `int`: an integer between `INT_MIN` and `INT_MAX`. -/
structure c_int where
  val : Int
  min_le : INT_MIN ≤ val
  le_max : val ≤ INT_MAX
deriving DecidableEq

/-- The `int` that results from storing `x`. -/
def to_c_int (x : Int) : c_int :=
  { val := wrap_int x,
    min_le := by unfold wrap_int INT_MIN; omega,
    le_max := by unfold wrap_int INT_MAX; omega }

instance (n : Nat) : OfNat c_int n := ⟨to_c_int n⟩

/-- Modelled from the spec: `scullv.h` (the declaration of `struct scullv_dev`)
is not among the sources. The fields are those `mmap.c` uses: `data`
(`void **`, `none` is a null array pointer, an entry `0` is a null block
pointer), `vmas` (the open count, a signed `int`: the invariant
`open_count >= 0` of section 3 is a condition on it), `qset` (number of slots
per segment), `size` (logical length in pages) and `sem` (the counter of the
semaphore). The `next` pointer is represented by the position of the node in
the chain, see `State`. -/
structure scullv_dev where
  data : Option (List Nat)
  vmas : c_int
  qset : Nat
  size : Nat
  sem : Int
deriving DecidableEq

/-- The memory the functions of `mmap.c` work on: the device `dev` that
`vma->vm_private_data` points to, the chain `dev->next, dev->next->next, ...`
up to `NULL`, and the reference count of every page (`struct page`
identified by a number). -/
structure State where
  dev : scullv_dev
  next : List scullv_dev
  count : Nat → Int

/-- The two fields of `struct vm_fault` used by the handler: the page offset
on input, the page on output (`none`: not set). -/
structure vm_fault where
  pgoff : Nat
  page : Option Nat
deriving DecidableEq

/-- The table `scullv_vm_ops` (the only table of operations in the file). -/
inductive vm_operations_struct where
  | scullv_vm_ops
deriving DecidableEq

/-- The fields of `struct vm_area_struct` written by `scullv_mmap`;
`vm_private_data` is the device of the `State`. -/
structure vm_area_struct where
  vm_ops : Option vm_operations_struct
  vm_flags : Nat
deriving DecidableEq

/-- Events of one call, in program order (ghost state). -/
inductive Event where
  | down
  | up
  | printk
  | read_size
  | read_qset
  | read_next
  | read_data
  | get_page (page : Nat)
deriving DecidableEq

/-- The constant `VM_FAULT_SIGBUS` of `linux/mm.h`. -/
def VM_FAULT_SIGBUS : Int := 2

/-- The constant `VM_RESERVED` of `linux/mm.h`. -/
def VM_RESERVED : Nat := 0x00080000

/-! ## Kernel primitives used by the file -/

/-- The effect of `down(&dev->sem)` on the counter of the semaphore once the
semaphore is acquired (waiting for a contended semaphore is not part of a
sequential model). -/
def down (s : State) : State :=
  { s with dev := { s.dev with sem := s.dev.sem - 1 } }

/-- The effect of `up(&dev->sem)` on the counter of the semaphore. -/
def up (s : State) : State :=
  { s with dev := { s.dev with sem := s.dev.sem + 1 } }

/-- The effect of `get_page(page)`: the reference count of `page` goes up by
one, every other count is untouched. -/
def get_page (s : State) (page : Nat) : State :=
  { s with count := fun p => if p = page then s.count p + 1 else s.count p }

/-! ## `scullv_vma_open`, `scullv_vma_close`, `scullv_mmap` -/

/-- The body `dev->vmas++` on the `int` field `vmas`: one more, wrapping from
`INT_MAX` to `INT_MIN`. -/
def scullv_vma_open (s : State) : State :=
  { s with dev := { s.dev with vmas := to_c_int (s.dev.vmas.val + 1) } }

/-- The body `dev->vmas--` on the `int` field `vmas`: one less, wrapping from
`INT_MIN` to `INT_MAX`. -/
def scullv_vma_close (s : State) : State :=
  { s with dev := { s.dev with vmas := to_c_int (s.dev.vmas.val - 1) } }

/-- The function `scullv_mmap`: sets `vm_ops`, ors `VM_RESERVED` into
`vm_flags`, calls `scullv_vma_open` and returns 0. -/
def scullv_mmap (s : State) (vma : vm_area_struct) : Int × vm_area_struct × State :=
  let vma1 : vm_area_struct :=
    { vm_ops := some vm_operations_struct.scullv_vm_ops,
      vm_flags := vma.vm_flags ||| VM_RESERVED }
  (0, vma1, scullv_vma_open s)

/-! ## `scullv_vma_fault` -/

/-- Where the loop of the walk stops: the pointer, the reduced offset, and
the events of the loop. -/
structure WalkResult where
  ptr : List scullv_dev
  pgoff : Nat
  trace : List Event

/-- The loop
`for (ptr = dev; ptr && pgoff >= dev->qset;) { ptr = ptr->next; pgoff -= dev->qset; }`
started at `ptr` with offset `pgoff`; `qset` is `dev->qset` of the head. Each
evaluation of the condition on a non-null `ptr` reads `dev->qset`, each
execution of the body reads `ptr->next`. -/
def walk (qset : Nat) : List scullv_dev → Nat → WalkResult
  | [], pgoff => { ptr := [], pgoff := pgoff, trace := [] }
  | seg :: rest, pgoff =>
    if pgoff ≥ qset then
      let w := walk qset rest (pgoff - qset)
      { ptr := w.ptr, pgoff := w.pgoff, trace := Event.read_qset :: Event.read_next :: w.trace }
    else
      { ptr := seg :: rest, pgoff := pgoff, trace := [Event.read_qset] }

/-- Number of executions of the loop body (hops to the next segment) recorded
in a list of events. -/
def hops (t : List Event) : Nat := t.count Event.read_next

/-- The statement `if (ptr && ptr->data) pageptr = ptr->data[pgoff];` with
`pageptr` initially `NULL`: the value of `pageptr` after it, or `none` when the
read falls outside the array. -/
def read_pageptr : List scullv_dev → Nat → Option Nat
  | [], _ => some 0
  | seg :: _, pgoff =>
    match seg.data with
    | none => some 0
    | some arr => arr[pgoff]?

/-- The events of `if (ptr && ptr->data) ...`: `ptr->data` is read when `ptr`
is not null. -/
def read_pageptr_trace : List scullv_dev → List Event
  | [] => []
  | _ :: _ => [Event.read_data]

/-- What one call of `scullv_vma_fault` returns: the `int` result, the
`vm_fault` (with `page` set or not), the memory after the call, and the events
of the call. -/
structure FaultReturn where
  result : Int
  vmf : vm_fault
  state : State
  trace : List Event

/-- The function `scullv_vma_fault`; `vmalloc_to_page` is the kernel function of
that name (from the address of a block to its page). -/
def scullv_vma_fault (vmalloc_to_page : Nat → Nat) (s : State) (vmf : vm_fault) :
    Option FaultReturn :=
  let pgoff := vmf.pgoff
  let s1 := down s
  if pgoff ≥ s1.dev.size then
    some { result := VM_FAULT_SIGBUS, vmf := vmf, state := up s1,
           trace := [Event.down, Event.printk, Event.read_size, Event.up] }
  else
    let w := walk s1.dev.qset (s1.dev :: s1.next) pgoff
    match read_pageptr w.ptr w.pgoff with
    | none => none
    | some pageptr =>
      let t := [Event.down, Event.printk, Event.read_size] ++ w.trace ++ read_pageptr_trace w.ptr
      if pageptr = 0 then
        some { result := VM_FAULT_SIGBUS, vmf := vmf, state := up s1, trace := t ++ [Event.up] }
      else
        let page := vmalloc_to_page pageptr
        let s2 := get_page s1 page
        some { result := 0, vmf := { vmf with page := some page }, state := up s2,
               trace := t ++ [Event.get_page page, Event.up] }

/-- The three outcomes of the specification. -/
inductive FaultResult where
  | Resolved
  | Hole
  | OutOfRange
deriving DecidableEq

/-- The exit path a call took, read off what it returned: result 0 is
`Resolved`; `VM_FAULT_SIGBUS` after the walk was entered (its condition read
`dev->qset`) is `Hole`; `VM_FAULT_SIGBUS` without entering the walk is
`OutOfRange`. -/
def FaultReturn.outcome (r : FaultReturn) : FaultResult :=
  if r.result = 0 then FaultResult.Resolved
  else if Event.read_qset ∈ r.trace then FaultResult.Hole
  else FaultResult.OutOfRange

/-- The chain of a state, head first. -/
def State.chain (s : State) : List scullv_dev := s.dev :: s.next

/-- Modelled from the spec: the allocator of the store is not among the
sources; section 3 says every segment holds an array of `quantum_set_size`
slots. A state is well formed when every data array of its chain has exactly
`dev->qset` slots. -/
def State.wf (s : State) : Bool :=
  s.chain.all fun seg =>
    match seg.data with
    | none => true
    | some arr => arr.length == s.dev.qset

/-! ## Sequences of calls -/

/-- The operations that change the open count. -/
inductive Op where
  | mmap
  | vma_open
  | vma_close
deriving DecidableEq

/-- One operation on the device. -/
def Op.run (s : State) : Op → State
  | Op.mmap => (scullv_mmap s { vm_ops := none, vm_flags := 0 }).2.2
  | Op.vma_open => scullv_vma_open s
  | Op.vma_close => scullv_vma_close s

/-- A sequence of operations, first to last. -/
def run_ops (s : State) (ops : List Op) : State := ops.foldl Op.run s

/-- Whether an operation is an open (`scullv_mmap` or `scullv_vma_open`). -/
def Op.is_open : Op → Bool
  | Op.vma_close => false
  | _ => true

/-- Number of opens in a sequence. -/
def opens (ops : List Op) : Nat := ops.countP Op.is_open

/-- Number of closes in a sequence. -/
def closes (ops : List Op) : Nat := ops.countP fun o => !o.is_open

/-- The handler called `n` times in a row, each time with the same `vm_fault`
as input: the returned values, first call first, and the memory after the
last call. -/
def fault_repeat (vmalloc_to_page : Nat → Nat) (vmf : vm_fault) :
    Nat → State → Option (List FaultReturn × State)
  | 0, s => some ([], s)
  | n + 1, s =>
    match scullv_vma_fault vmalloc_to_page s vmf with
    | none => none
    | some r =>
      match fault_repeat vmalloc_to_page vmf n r.state with
      | none => none
      | some (rs, s1) => some (r :: rs, s1)

/-! ## Definitions used to state the properties -/

/-- Section 4.1 of the specification on an index-addressable chain: the
content of slot `i mod qset` of segment `i div qset`; a null pointer when the
chain has no such segment or the segment has no data array; `none` when the
array has no such slot. -/
def locate_spec (chain : List scullv_dev) (qset i : Nat) : Option Nat :=
  if qset = 0 then some 0
  else
    match chain[i / qset]? with
    | none => some 0
    | some seg =>
      match seg.data with
      | none => some 0
      | some arr => arr[i % qset]?

/-- The walk as the handler runs it: on the chain of the device, after `down`. -/
def fault_walk (s : State) (vmf : vm_fault) : WalkResult :=
  walk (down s).dev.qset ((down s).dev :: (down s).next) vmf.pgoff

/-- The events of a call that passed the range check, up to the test of
`pageptr`. -/
def fault_events (s : State) (vmf : vm_fault) : List Event :=
  [Event.down, Event.printk, Event.read_size] ++ (fault_walk s vmf).trace ++
    read_pageptr_trace (fault_walk s vmf).ptr

/-! ## The store of the scenario of section 8 -/

/-- The store with `quantum_set_size = 4`, two segments, `total_size = 6`,
blocks at the logical indices 0, 1, 3, 5 and holes at 2 and 4. The blocks are
at the addresses `0x10000 + 4096 * index`. -/
def scenario : State :=
  { dev := { data := some [0x10000, 0x11000, 0, 0x13000], vmas := 1, qset := 4, size := 6, sem := 1 },
    next := [{ data := some [0, 0x15000, 0, 0], vmas := 0, qset := 4, size := 0, sem := 1 }],
    count := fun _ => 1 }

/-- A `vmalloc_to_page` for the scenario: the page frame number of an address. -/
def scenario_page (addr : Nat) : Nat := addr / 4096

/-! ## Lemmas on the walk -/

theorem walk_ptr (qset : Nat) (hq : 0 < qset) (chain : List scullv_dev) (i : Nat) :
    (walk qset chain i).ptr = chain.drop (i / qset) := by
  induction chain generalizing i with
  | nil => simp [walk]
  | cons seg rest ih =>
    unfold walk
    split
    · rename_i h
      have hdiv : i / qset = (i - qset) / qset + 1 := by
        rw [Nat.div_eq_sub_div hq h]
      simp only [ih, hdiv, List.drop_succ_cons]
    · rename_i h
      have hlt : i < qset := Nat.lt_of_not_ge h
      simp [Nat.div_eq_of_lt hlt]

theorem walk_pgoff (qset : Nat) (hq : 0 < qset) (chain : List scullv_dev) (i : Nat)
    (hlen : i / qset < chain.length) : (walk qset chain i).pgoff = i % qset := by
  induction chain generalizing i with
  | nil => simp at hlen
  | cons seg rest ih =>
    unfold walk
    split
    · rename_i h
      have hdiv : i / qset = (i - qset) / qset + 1 := by
        rw [Nat.div_eq_sub_div hq h]
      have hmod : i % qset = (i - qset) % qset := Nat.mod_eq_sub_mod h
      rw [hdiv] at hlen
      simp only [hmod]
      exact ih (i - qset) (by simpa using hlen)
    · rename_i h
      have hlt : i < qset := Nat.lt_of_not_ge h
      simp [Nat.mod_eq_of_lt hlt]

theorem walk_trace_mem (qset : Nat) (chain : List scullv_dev) (i : Nat) :
    ∀ e ∈ (walk qset chain i).trace, e = Event.read_qset ∨ e = Event.read_next := by
  induction chain generalizing i with
  | nil => simp [walk]
  | cons seg rest ih =>
    unfold walk
    split
    · intro e he
      simp only [List.mem_cons] at he
      rcases he with he | he | he
      · exact Or.inl he
      · exact Or.inr he
      · exact ih _ e he
    · intro e he
      simp only [List.mem_singleton] at he
      exact Or.inl he

theorem walk_hops_le (qset : Nat) (chain : List scullv_dev) (i : Nat) :
    hops (walk qset chain i).trace ≤ chain.length := by
  induction chain generalizing i with
  | nil => simp [walk, hops]
  | cons seg rest ih =>
    unfold walk
    split
    · have := ih (i - qset)
      simp only [hops] at this ⊢
      simp [List.count_cons]
      omega
    · simp [hops, List.count_cons]

theorem walk_zero (chain : List scullv_dev) (i : Nat) :
    (walk 0 chain i).ptr = [] ∧ hops (walk 0 chain i).trace = chain.length := by
  induction chain generalizing i with
  | nil => simp [walk, hops]
  | cons seg rest ih =>
    unfold walk
    have := ih i
    simp only [hops] at this ⊢
    simp [List.count_cons, this]

theorem read_pageptr_walk (qset : Nat) (chain : List scullv_dev) (i : Nat) :
    read_pageptr (walk qset chain i).ptr (walk qset chain i).pgoff = locate_spec chain qset i := by
  unfold locate_spec
  by_cases hq0 : qset = 0
  · subst hq0
    simp [(walk_zero chain i).1, read_pageptr]
  · have hq : 0 < qset := Nat.pos_of_ne_zero hq0
    rw [walk_ptr qset hq, if_neg hq0]
    by_cases hlen : i / qset < chain.length
    · rw [walk_pgoff qset hq chain i hlen]
      rw [List.drop_eq_getElem_cons hlen]
      simp [read_pageptr, List.getElem?_eq_getElem hlen]
    · have hle : chain.length ≤ i / qset := Nat.le_of_not_lt hlen
      simp [List.drop_eq_nil_of_le hle, read_pageptr, List.getElem?_eq_none hle]

/-! ## Lemmas on the handler -/

theorem up_down (s : State) : up (down s) = s := by
  cases s with
  | mk dev next count =>
    cases dev
    simp [up, down]

theorem up_get_page_down (s : State) (page : Nat) :
    up (get_page (down s) page) = get_page s page := by
  cases s with
  | mk dev next count =>
    cases dev
    simp [up, down, get_page]

theorem locate_spec_down (s : State) (q i : Nat) :
    locate_spec ((down s).dev :: (down s).next) q i = locate_spec s.chain q i := by
  unfold locate_spec State.chain down
  cases i / q with
  | zero => simp
  | succ k => simp

theorem hops_fault_trace (w t u : List Event)
    (ht : Event.read_next ∉ t) (hu : Event.read_next ∉ u) :
    hops ([Event.down, Event.printk, Event.read_size] ++ w ++ t ++ u) = hops w := by
  simp [hops, List.count_append, List.count_cons, List.count_eq_zero.mpr ht,
    List.count_eq_zero.mpr hu]

theorem read_pageptr_trace_mem (ptr : List scullv_dev) :
    ∀ e ∈ read_pageptr_trace ptr, e = Event.read_data := by
  cases ptr <;> simp [read_pageptr_trace]

theorem fault_out_of_range (vtp : Nat → Nat) (s : State) (vmf : vm_fault)
    (h : s.dev.size ≤ vmf.pgoff) :
    scullv_vma_fault vtp s vmf =
      some { result := VM_FAULT_SIGBUS, vmf := vmf, state := s,
             trace := [Event.down, Event.printk, Event.read_size, Event.up] } := by
  have h1 : vmf.pgoff ≥ (down s).dev.size := h
  simp only [scullv_vma_fault, h1, if_true, up_down]

theorem fault_null (vtp : Nat → Nat) (s : State) (vmf : vm_fault)
    (hi : vmf.pgoff < s.dev.size)
    (h : read_pageptr (fault_walk s vmf).ptr (fault_walk s vmf).pgoff = some 0) :
    scullv_vma_fault vtp s vmf =
      some { result := VM_FAULT_SIGBUS, vmf := vmf, state := s,
             trace := fault_events s vmf ++ [Event.up] } := by
  have h1 : ¬ vmf.pgoff ≥ (down s).dev.size := Nat.not_le.mpr hi
  unfold fault_walk at h
  simp only [scullv_vma_fault, h1, if_false, h, if_true, up_down, fault_events, fault_walk]

theorem fault_block (vtp : Nat → Nat) (s : State) (vmf : vm_fault) (b : Nat)
    (hi : vmf.pgoff < s.dev.size)
    (h : read_pageptr (fault_walk s vmf).ptr (fault_walk s vmf).pgoff = some b)
    (hb : b ≠ 0) :
    scullv_vma_fault vtp s vmf =
      some { result := 0, vmf := { vmf with page := some (vtp b) },
             state := get_page s (vtp b),
             trace := fault_events s vmf ++ [Event.get_page (vtp b), Event.up] } := by
  have h1 : ¬ vmf.pgoff ≥ (down s).dev.size := Nat.not_le.mpr hi
  unfold fault_walk at h
  simp only [scullv_vma_fault, h1, if_false, h, hb, up_get_page_down, fault_events, fault_walk]

theorem fault_undefined (vtp : Nat → Nat) (s : State) (vmf : vm_fault)
    (hi : vmf.pgoff < s.dev.size)
    (h : read_pageptr (fault_walk s vmf).ptr (fault_walk s vmf).pgoff = none) :
    scullv_vma_fault vtp s vmf = none := by
  have h1 : ¬ vmf.pgoff ≥ (down s).dev.size := Nat.not_le.mpr hi
  unfold fault_walk at h
  simp only [scullv_vma_fault, h1, if_false, h]

theorem fault_read (s : State) (vmf : vm_fault) :
    read_pageptr (fault_walk s vmf).ptr (fault_walk s vmf).pgoff =
      locate_spec s.chain s.dev.qset vmf.pgoff := by
  unfold fault_walk
  rw [read_pageptr_walk, locate_spec_down]
  rfl

theorem hops_fault_walk_le (s : State) (vmf : vm_fault) :
    hops (fault_walk s vmf).trace ≤ s.chain.length :=
  walk_hops_le _ _ _

theorem hops_fault_walk_zero (s : State) (vmf : vm_fault) (hq : s.dev.qset = 0) :
    hops (fault_walk s vmf).trace = s.chain.length := by
  unfold fault_walk
  rw [show (down s).dev.qset = 0 from hq]
  exact (walk_zero _ _).2

theorem locate_spec_wf (s : State) (i : Nat) (hwf : s.wf = true) :
    ∃ p, locate_spec s.chain s.dev.qset i = some p := by
  unfold locate_spec
  by_cases hq0 : s.dev.qset = 0
  · exact ⟨0, by simp [hq0]⟩
  · rw [if_neg hq0]
    cases hseg : s.chain[i / s.dev.qset]? with
    | none => exact ⟨0, rfl⟩
    | some seg =>
      dsimp only
      cases hdata : seg.data with
      | none => exact ⟨0, rfl⟩
      | some arr =>
        dsimp only
        have hmem : seg ∈ s.chain := List.getElem?_mem hseg
        have hall := List.all_eq_true.mp hwf seg hmem
        simp only [hdata, beq_iff_eq] at hall
        have hlt : i % s.dev.qset < arr.length := by
          rw [hall]
          exact Nat.mod_lt _ (Nat.pos_of_ne_zero hq0)
        exact ⟨arr[i % s.dev.qset], List.getElem?_eq_getElem hlt⟩

theorem read_qset_mem_events (s : State) (vmf : vm_fault) :
    Event.read_qset ∈ fault_events s vmf := by
  unfold fault_events fault_walk walk
  split <;> simp

theorem hops_fault_events (s : State) (vmf : vm_fault) (u : List Event)
    (hu : Event.read_next ∉ u) :
    hops (fault_events s vmf ++ u) = hops (fault_walk s vmf).trace := by
  unfold fault_events
  apply hops_fault_trace _ _ _ _ hu
  intro hmem
  have := read_pageptr_trace_mem _ _ hmem
  cases this

theorem fault_events_tail (s : State) (vmf : vm_fault) :
    ∃ mid, fault_events s vmf = Event.down :: mid ∧
      Event.down ∉ mid ∧ Event.up ∉ mid ∧ ∀ p, Event.get_page p ∉ mid := by
  refine ⟨[Event.printk, Event.read_size] ++ (fault_walk s vmf).trace ++
    read_pageptr_trace (fault_walk s vmf).ptr, by simp [fault_events], ?_, ?_, ?_⟩
  · intro hmem
    simp only [List.mem_append, List.mem_cons, List.mem_singleton, List.not_mem_nil] at hmem
    rcases hmem with (h | h) | h
    · rcases h with h | h | h <;> cases h
    · rcases walk_trace_mem _ _ _ _ h with h | h <;> cases h
    · cases read_pageptr_trace_mem _ _ h
  · intro hmem
    simp only [List.mem_append, List.mem_cons, List.mem_singleton, List.not_mem_nil] at hmem
    rcases hmem with (h | h) | h
    · rcases h with h | h | h <;> cases h
    · rcases walk_trace_mem _ _ _ _ h with h | h <;> cases h
    · cases read_pageptr_trace_mem _ _ h
  · intro p hmem
    simp only [List.mem_append, List.mem_cons, List.mem_singleton, List.not_mem_nil] at hmem
    rcases hmem with (h | h) | h
    · rcases h with h | h | h <;> cases h
    · rcases walk_trace_mem _ _ _ _ h with h | h <;> cases h
    · cases read_pageptr_trace_mem _ _ h

/-- The three exit paths: whatever a call returns is the value of one of
them. -/
theorem fault_cases (vtp : Nat → Nat) (s : State) (vmf : vm_fault) (r : FaultReturn)
    (hr : scullv_vma_fault vtp s vmf = some r) :
    (s.dev.size ≤ vmf.pgoff ∧
      r = { result := VM_FAULT_SIGBUS, vmf := vmf, state := s,
            trace := [Event.down, Event.printk, Event.read_size, Event.up] }) ∨
    (vmf.pgoff < s.dev.size ∧
      r = { result := VM_FAULT_SIGBUS, vmf := vmf, state := s,
            trace := fault_events s vmf ++ [Event.up] }) ∨
    (vmf.pgoff < s.dev.size ∧ ∃ b, b ≠ 0 ∧
      r = { result := 0, vmf := { vmf with page := some (vtp b) },
            state := get_page s (vtp b),
            trace := fault_events s vmf ++ [Event.get_page (vtp b), Event.up] }) := by
  by_cases hi : vmf.pgoff < s.dev.size
  · cases hread : read_pageptr (fault_walk s vmf).ptr (fault_walk s vmf).pgoff with
    | none =>
      rw [fault_undefined vtp s vmf hi hread] at hr
      cases hr
    | some b =>
      by_cases hb : b = 0
      · subst hb
        rw [fault_null vtp s vmf hi hread] at hr
        exact Or.inr (Or.inl ⟨hi, (Option.some.inj hr).symm⟩)
      · rw [fault_block vtp s vmf b hi hread hb] at hr
        exact Or.inr (Or.inr ⟨hi, b, hb, (Option.some.inj hr).symm⟩)
  · rw [fault_out_of_range vtp s vmf (Nat.le_of_not_lt hi)] at hr
    exact Or.inl ⟨Nat.le_of_not_lt hi, (Option.some.inj hr).symm⟩

/-- On a well-formed state the call returns. -/
theorem fault_returns (vtp : Nat → Nat) (s : State) (vmf : vm_fault) (hwf : s.wf = true) :
    ∃ r, scullv_vma_fault vtp s vmf = some r := by
  by_cases hi : vmf.pgoff < s.dev.size
  · obtain ⟨p, hp⟩ := locate_spec_wf s vmf.pgoff hwf
    have hread := (fault_read s vmf).trans hp
    by_cases hb : p = 0
    · subst hb
      exact ⟨_, fault_null vtp s vmf hi hread⟩
    · exact ⟨_, fault_block vtp s vmf p hi hread hb⟩
  · exact ⟨_, fault_out_of_range vtp s vmf (Nat.le_of_not_lt hi)⟩

/-! ## The fault handler: resolved, hole, out of range -/

theorem locate_spec_block (chain : List scullv_dev) (qset i : Nat) (seg : scullv_dev)
    (arr : List Nat) (b : Nat) (hq : 0 < qset)
    (hseg : chain[i / qset]? = some seg) (hdata : seg.data = some arr)
    (hslot : arr[i % qset]? = some b) :
    locate_spec chain qset i = some b := by
  unfold locate_spec
  rw [if_neg (Nat.pos_iff_ne_zero.mp hq), hseg]
  dsimp only
  rw [hdata]
  exact hslot

theorem outcome_resolved (r : FaultReturn) (h : r.result = 0) :
    r.outcome = FaultResult.Resolved := by
  simp [FaultReturn.outcome, h]

theorem outcome_hole (r : FaultReturn) (h : r.result = VM_FAULT_SIGBUS)
    (ht : Event.read_qset ∈ r.trace) : r.outcome = FaultResult.Hole := by
  simp [FaultReturn.outcome, h, ht, VM_FAULT_SIGBUS]

/-- C1: when `qset > 0`, the page index is below `size`, segment number
`pgoff / qset` exists in the chain, has a data array, and slot `pgoff % qset`
of it holds a non-null block `b`, `scullv_vma_fault` returns 0 (the outcome is
`Resolved`), stores the page of `b` in `vmf->page`, leaves the reference count
of that page exactly one above its value before the call, and leaves every
other count alone. -/
theorem C1_fault_resolved (vmalloc_to_page : Nat → Nat) (s : State) (vmf : vm_fault)
    (seg : scullv_dev) (arr : List Nat) (b : Nat)
    (hq : 0 < s.dev.qset) (hi : vmf.pgoff < s.dev.size)
    (hseg : s.chain[vmf.pgoff / s.dev.qset]? = some seg)
    (hdata : seg.data = some arr)
    (hslot : arr[vmf.pgoff % s.dev.qset]? = some b) (hb : b ≠ 0) :
    ∃ r, scullv_vma_fault vmalloc_to_page s vmf = some r ∧
      r.result = 0 ∧ r.outcome = FaultResult.Resolved ∧
      r.vmf.page = some (vmalloc_to_page b) ∧ r.vmf.pgoff = vmf.pgoff ∧
      r.state.count (vmalloc_to_page b) = s.count (vmalloc_to_page b) + 1 ∧
      ∀ p, p ≠ vmalloc_to_page b → r.state.count p = s.count p := by
  have hloc := locate_spec_block s.chain s.dev.qset vmf.pgoff seg arr b hq hseg hdata hslot
  have hread := (fault_read s vmf).trans hloc
  refine ⟨_, fault_block vmalloc_to_page s vmf b hi hread hb, rfl, outcome_resolved _ rfl,
    rfl, rfl, ?_, ?_⟩
  · simp [get_page]
  · intro p hp
    simp [get_page, hp]

/-- Witness of C1: page index 5 of the scenario store (segment 1, slot 1). -/
theorem C1_fault_resolved_witness :
    ∃ r, scullv_vma_fault scenario_page scenario { pgoff := 5, page := none } = some r ∧
      r.result = 0 ∧ r.outcome = FaultResult.Resolved ∧
      r.vmf.page = some (scenario_page 0x15000) ∧ r.vmf.pgoff = 5 ∧
      r.state.count (scenario_page 0x15000) = scenario.count (scenario_page 0x15000) + 1 ∧
      ∀ p, p ≠ scenario_page 0x15000 → r.state.count p = scenario.count p :=
  C1_fault_resolved scenario_page scenario { pgoff := 5, page := none }
    { data := some [0, 0x15000, 0, 0], vmas := 0, qset := 4, size := 0, sem := 1 }
    [0, 0x15000, 0, 0] 0x15000 (by decide) (by decide) (by decide) rfl (by decide) (by decide)

/-- C2: when the page index is below `size` and no block is present at it (the
slot `pgoff % qset` of segment `pgoff / qset` is null, that segment has no data
array, the chain ends before that segment, or there are no slots at all
because `qset = 0`), `scullv_vma_fault` returns `VM_FAULT_SIGBUS` on the hole
path, does not set `vmf->page`, and leaves the whole memory, in particular the
reference count of every page, as it was. -/
theorem C2_fault_hole (vmalloc_to_page : Nat → Nat) (s : State) (vmf : vm_fault)
    (hi : vmf.pgoff < s.dev.size)
    (hnone :
      (∃ seg arr, s.chain[vmf.pgoff / s.dev.qset]? = some seg ∧ seg.data = some arr ∧
        arr[vmf.pgoff % s.dev.qset]? = some 0) ∨
      (∃ seg, s.chain[vmf.pgoff / s.dev.qset]? = some seg ∧ seg.data = none) ∨
      s.chain[vmf.pgoff / s.dev.qset]? = none ∨
      s.dev.qset = 0) :
    ∃ r, scullv_vma_fault vmalloc_to_page s vmf = some r ∧
      r.result = VM_FAULT_SIGBUS ∧ r.outcome = FaultResult.Hole ∧
      r.vmf = vmf ∧ r.state = s ∧ ∀ p, r.state.count p = s.count p := by
  have hloc : locate_spec s.chain s.dev.qset vmf.pgoff = some 0 := by
    unfold locate_spec
    by_cases hq0 : s.dev.qset = 0
    · simp [hq0]
    · rw [if_neg hq0]
      rcases hnone with ⟨seg, arr, hseg, hdata, hslot⟩ | ⟨seg, hseg, hdata⟩ | hseg | hq
      · rw [hseg]
        dsimp only
        rw [hdata]
        exact hslot
      · rw [hseg]
        dsimp only
        rw [hdata]
      · rw [hseg]
      · exact absurd hq hq0
  have hread := (fault_read s vmf).trans hloc
  refine ⟨_, fault_null vmalloc_to_page s vmf hi hread, rfl, ?_, rfl, rfl, fun _ => rfl⟩
  apply outcome_hole _ rfl
  exact List.mem_append_left _ (read_qset_mem_events s vmf)

/-- Witness of C2: page index 2 of the scenario store (segment 0, slot 2 is
null). -/
theorem C2_fault_hole_witness :
    ∃ r, scullv_vma_fault scenario_page scenario { pgoff := 2, page := none } = some r ∧
      r.result = VM_FAULT_SIGBUS ∧ r.outcome = FaultResult.Hole ∧
      r.vmf = { pgoff := 2, page := none } ∧ r.state = scenario ∧
      ∀ p, r.state.count p = scenario.count p :=
  C2_fault_hole scenario_page scenario { pgoff := 2, page := none } (by decide)
    (Or.inl ⟨scenario.dev, [0x10000, 0x11000, 0, 0x13000], by decide, rfl, by decide⟩)

/-- C3: when the page index is at or beyond `size` (so for every index when
`size = 0`, whatever the chain holds), `scullv_vma_fault` returns
`VM_FAULT_SIGBUS` on the out-of-range path: the only events of the call are
`down`, `printk`, the read of `size` and `up`, so the chain is not walked;
`vmf->page` is not set, and the whole memory, in particular the reference count
of every page, is as it was. -/
theorem C3_fault_out_of_range (vmalloc_to_page : Nat → Nat) (s : State) (vmf : vm_fault)
    (h : s.dev.size ≤ vmf.pgoff ∨ s.dev.size = 0) :
    ∃ r, scullv_vma_fault vmalloc_to_page s vmf = some r ∧
      r.result = VM_FAULT_SIGBUS ∧ r.outcome = FaultResult.OutOfRange ∧
      r.trace = [Event.down, Event.printk, Event.read_size, Event.up] ∧ hops r.trace = 0 ∧
      r.vmf = vmf ∧ r.state = s ∧ ∀ p, r.state.count p = s.count p := by
  have hle : s.dev.size ≤ vmf.pgoff := by
    rcases h with h | h
    · exact h
    · rw [h]
      exact Nat.zero_le _
  refine ⟨_, fault_out_of_range vmalloc_to_page s vmf hle, rfl, ?_, rfl, ?_, rfl, rfl,
    fun _ => rfl⟩
  · simp [FaultReturn.outcome, VM_FAULT_SIGBUS]
  · simp [hops]

/-- Witness of C3: page index 6 of the scenario store, whose size is 6. -/
theorem C3_fault_out_of_range_witness :
    ∃ r, scullv_vma_fault scenario_page scenario { pgoff := 6, page := none } = some r ∧
      r.result = VM_FAULT_SIGBUS ∧ r.outcome = FaultResult.OutOfRange ∧
      r.trace = [Event.down, Event.printk, Event.read_size, Event.up] ∧ hops r.trace = 0 ∧
      r.vmf = { pgoff := 6, page := none } ∧ r.state = scenario ∧
      ∀ p, r.state.count p = scenario.count p :=
  C3_fault_out_of_range scenario_page scenario { pgoff := 6, page := none }
    (Or.inl (by decide))

/-! ## Repeated faults -/

/-- C4: when page index `pgoff` resolves to a block `b` (as in C1), `n`
calls of `scullv_vma_fault` in a row on that index all return: there are
exactly `n` returned values, each has result 0 and the page of `b` in
`vmf->page`, the reference count of that page after call number `k + 1` is
its value before the calls plus `k + 1` (no call skips the increment), and
after the `n` calls it is the value before plus `n`. -/
theorem C4_fault_repeat (vmalloc_to_page : Nat → Nat) (n : Nat) (s : State) (vmf : vm_fault)
    (seg : scullv_dev) (arr : List Nat) (b : Nat)
    (hq : 0 < s.dev.qset) (hi : vmf.pgoff < s.dev.size)
    (hseg : s.chain[vmf.pgoff / s.dev.qset]? = some seg)
    (hdata : seg.data = some arr)
    (hslot : arr[vmf.pgoff % s.dev.qset]? = some b) (hb : b ≠ 0) :
    ∃ rs s1, fault_repeat vmalloc_to_page vmf n s = some (rs, s1) ∧
      rs.length = n ∧
      (∀ (k : Nat) (r : FaultReturn), rs[k]? = some r →
        r.result = 0 ∧ r.vmf.page = some (vmalloc_to_page b) ∧
        r.state.count (vmalloc_to_page b) = s.count (vmalloc_to_page b) + ((k : Int) + 1)) ∧
      s1.count (vmalloc_to_page b) = s.count (vmalloc_to_page b) + (n : Int) := by
  induction n generalizing s with
  | zero => exact ⟨[], s, rfl, rfl, by simp, by simp⟩
  | succ n ih =>
    have hloc := locate_spec_block s.chain s.dev.qset vmf.pgoff seg arr b hq hseg hdata hslot
    have hread := (fault_read s vmf).trans hloc
    have hcall := fault_block vmalloc_to_page s vmf b hi hread hb
    obtain ⟨rs, s1, hrep, hlen, hall, hfin⟩ :=
      ih (get_page s (vmalloc_to_page b)) hq hi hseg hslot
    have hcount : (get_page s (vmalloc_to_page b)).count (vmalloc_to_page b) =
        s.count (vmalloc_to_page b) + 1 := by
      simp [get_page]
    refine ⟨{ result := 0, vmf := { vmf with page := some (vmalloc_to_page b) },
              state := get_page s (vmalloc_to_page b),
              trace := fault_events s vmf ++ [Event.get_page (vmalloc_to_page b), Event.up] }
            :: rs, s1, ?_, ?_, ?_, ?_⟩
    · simp only [fault_repeat, hcall, hrep]
    · simp [hlen]
    · intro k r hk
      cases k with
      | zero =>
        simp only [List.getElem?_cons_zero, Option.some.injEq] at hk
        subst hk
        exact ⟨rfl, rfl, by simp [get_page]⟩
      | succ k =>
        simp only [List.getElem?_cons_succ] at hk
        obtain ⟨h1, h2, h3⟩ := hall k r hk
        refine ⟨h1, h2, ?_⟩
        rw [h3, hcount]
        push_cast
        ring
    · rw [hfin, hcount]
      push_cast
      ring

/-- Witness of C4: three faults on page index 5 of the scenario store. -/
theorem C4_fault_repeat_witness :
    ∃ rs s1, fault_repeat scenario_page { pgoff := 5, page := none } 3 scenario = some (rs, s1) ∧
      rs.length = 3 ∧
      (∀ (k : Nat) (r : FaultReturn), rs[k]? = some r →
        r.result = 0 ∧ r.vmf.page = some (scenario_page 0x15000) ∧
        r.state.count (scenario_page 0x15000) =
          scenario.count (scenario_page 0x15000) + ((k : Int) + 1)) ∧
      s1.count (scenario_page 0x15000) = scenario.count (scenario_page 0x15000) + ((3 : Nat) : Int) :=
  C4_fault_repeat scenario_page 3 scenario { pgoff := 5, page := none }
    { data := some [0, 0x15000, 0, 0], vmas := 0, qset := 4, size := 0, sem := 1 }
    [0, 0x15000, 0, 0] 0x15000 (by decide) (by decide) (by decide) rfl (by decide) (by decide)

/-! ## The open count -/

theorem c_int_eq (a b : c_int) (h : a.val = b.val) : a = b := by
  cases a
  cases b
  simp only [c_int.mk.injEq]
  exact h

theorem wrap_int_of_range (x : Int) (hlo : INT_MIN ≤ x) (hhi : x ≤ INT_MAX) :
    wrap_int x = x := by
  unfold wrap_int
  unfold INT_MIN at hlo
  unfold INT_MAX at hhi
  omega

theorem run_vmas (s : State) (o : Op) :
    (o.run s).dev.vmas.val = wrap_int (s.dev.vmas.val + (if o.is_open then 1 else -1)) := by
  cases o <;> rfl

theorem run_ops_vmas (ops : List Op) (s : State) :
    (run_ops s ops).dev.vmas.val =
      wrap_int (s.dev.vmas.val + (opens ops : Int) - (closes ops : Int)) := by
  induction ops generalizing s with
  | nil =>
    have h := wrap_int_of_range s.dev.vmas.val s.dev.vmas.min_le s.dev.vmas.le_max
    simp [run_ops, opens, closes, h]
  | cons o rest ih =>
    have hstep : run_ops s (o :: rest) = run_ops (o.run s) rest := rfl
    rw [hstep, ih, run_vmas]
    cases ho : o.is_open
    · have h1 : opens (o :: rest) = opens rest := by simp [opens, List.countP_cons, ho]
      have h2 : closes (o :: rest) = closes rest + 1 := by simp [closes, List.countP_cons, ho]
      rw [h1, h2]
      simp only [Bool.false_eq_true, if_false]
      push_cast
      unfold wrap_int
      omega
    · have h1 : opens (o :: rest) = opens rest + 1 := by simp [opens, List.countP_cons, ho]
      have h2 : closes (o :: rest) = closes rest := by simp [closes, List.countP_cons, ho]
      rw [h1, h2]
      simp only [if_true]
      push_cast
      unfold wrap_int
      omega

/-- C5: after any sequence of opens (`scullv_mmap`, `scullv_vma_open`) and
closes (`scullv_vma_close`) the open count is its starting value plus the
number of opens minus the number of closes, wrapped into the range of an
`int`; so a sequence with equally many opens and closes leaves it at its
starting value, and every ordering of `n` opens and `n` closes (`n >= 1`)
started from `vmas = 0` ends with `vmas = 0`. -/
theorem C5_open_close_balance (s : State) (ops : List Op) :
    (run_ops s ops).dev.vmas.val =
      wrap_int (s.dev.vmas.val + (opens ops : Int) - (closes ops : Int)) ∧
    (opens ops = closes ops → (run_ops s ops).dev.vmas = s.dev.vmas) ∧
    (∀ n, 1 ≤ n → opens ops = n → closes ops = n → s.dev.vmas = 0 →
      (run_ops s ops).dev.vmas = 0) := by
  have hbal : opens ops = closes ops → (run_ops s ops).dev.vmas = s.dev.vmas := by
    intro h
    apply c_int_eq
    rw [run_ops_vmas, h]
    have hr := wrap_int_of_range s.dev.vmas.val s.dev.vmas.min_le s.dev.vmas.le_max
    rw [show s.dev.vmas.val + (closes ops : Int) - (closes ops : Int) = s.dev.vmas.val by ring]
    exact hr
  refine ⟨run_ops_vmas ops s, hbal, ?_⟩
  intro n _ ho hc h0
  rw [hbal (ho.trans hc.symm), h0]

/-- Witness of C5: a close before the matching open, then two opens and a
close, on the scenario store with no mapping. -/
theorem C5_open_close_balance_witness :
    (run_ops { scenario with dev := { scenario.dev with vmas := 0 } }
      [Op.vma_close, Op.mmap, Op.vma_open, Op.vma_close]).dev.vmas = 0 :=
  (C5_open_close_balance { scenario with dev := { scenario.dev with vmas := 0 } }
    [Op.vma_close, Op.mmap, Op.vma_open, Op.vma_close]).2.2 2 (by decide) (by decide)
    (by decide) rfl

/-- C6, counterexample: on a device with `vmas = 0` (no mapping),
`scullv_vma_close` leaves `vmas = -1`, and on a device with `vmas = INT_MAX`
both `scullv_vma_open` and `scullv_mmap` leave `vmas = INT_MIN`; in each case
`vmas >= 0` holds before the call and not after it. -/
theorem C6_counterexample :
    (0 ≤ ({ scenario with dev := { scenario.dev with vmas := 0 } } : State).dev.vmas.val ∧
      (scullv_vma_close
        { scenario with dev := { scenario.dev with vmas := 0 } }).dev.vmas.val = -1 ∧
      ¬ 0 ≤ (scullv_vma_close
        { scenario with dev := { scenario.dev with vmas := 0 } }).dev.vmas.val) ∧
    (0 ≤ ({ scenario with dev := { scenario.dev with vmas := 2147483647 } } : State).dev.vmas.val ∧
      (scullv_vma_open
        { scenario with dev := { scenario.dev with vmas := 2147483647 } }).dev.vmas.val
          = INT_MIN ∧
      ¬ 0 ≤ (scullv_vma_open
        { scenario with dev := { scenario.dev with vmas := 2147483647 } }).dev.vmas.val ∧
      ¬ 0 ≤ (scullv_mmap
        { scenario with dev := { scenario.dev with vmas := 2147483647 } }
        { vm_ops := none, vm_flags := 0 }).2.2.dev.vmas.val) := by
  decide

/-- C6, amended: from a state with `vmas >= 0`, `scullv_vma_fault` leaves
`vmas` unchanged, hence `>= 0` (it returns on a state whose data arrays have
`qset` slots); `scullv_mmap` and `scullv_vma_open` yield `vmas + 1` when
`vmas < INT_MAX` and wrap to `INT_MIN` at `INT_MAX`, so they leave `vmas >= 0`
exactly when `vmas < INT_MAX` before the call; `scullv_vma_close` yields
`vmas - 1`, so it leaves `vmas >= 0` exactly when `vmas >= 1` before the
call. -/
theorem C6_vmas_nonneg (vmalloc_to_page : Nat → Nat) (s : State) (vma : vm_area_struct)
    (vmf : vm_fault) (h : 0 ≤ s.dev.vmas.val) :
    (s.dev.vmas.val < INT_MAX →
      (scullv_mmap s vma).2.2.dev.vmas.val = s.dev.vmas.val + 1 ∧
      (scullv_vma_open s).dev.vmas.val = s.dev.vmas.val + 1) ∧
    (s.dev.vmas.val = INT_MAX →
      (scullv_mmap s vma).2.2.dev.vmas.val = INT_MIN ∧
      (scullv_vma_open s).dev.vmas.val = INT_MIN) ∧
    (0 ≤ (scullv_mmap s vma).2.2.dev.vmas.val ↔ s.dev.vmas.val < INT_MAX) ∧
    (0 ≤ (scullv_vma_open s).dev.vmas.val ↔ s.dev.vmas.val < INT_MAX) ∧
    (s.wf = true → ∃ r, scullv_vma_fault vmalloc_to_page s vmf = some r) ∧
    (∀ r, scullv_vma_fault vmalloc_to_page s vmf = some r →
      r.state.dev.vmas = s.dev.vmas ∧ 0 ≤ r.state.dev.vmas.val) ∧
    (scullv_vma_close s).dev.vmas.val = s.dev.vmas.val - 1 ∧
    (0 ≤ (scullv_vma_close s).dev.vmas.val ↔ 1 ≤ s.dev.vmas.val) := by
  have hhi := s.dev.vmas.le_max
  have hopen : (scullv_vma_open s).dev.vmas.val = wrap_int (s.dev.vmas.val + 1) := rfl
  have hmmap : (scullv_mmap s vma).2.2.dev.vmas.val = wrap_int (s.dev.vmas.val + 1) := rfl
  have hclose : (scullv_vma_close s).dev.vmas.val = wrap_int (s.dev.vmas.val - 1) := rfl
  rw [hopen, hmmap, hclose]
  unfold INT_MAX at hhi
  unfold wrap_int INT_MAX INT_MIN
  refine ⟨?_, ?_, ?_, ?_, fault_returns vmalloc_to_page s vmf, ?_, ?_, ?_⟩
  · intro hlt
    omega
  · intro heq
    omega
  · omega
  · omega
  · intro r hr
    have hv : r.state.dev.vmas = s.dev.vmas := by
      rcases fault_cases vmalloc_to_page s vmf r hr with ⟨_, hr⟩ | ⟨_, hr⟩ | ⟨_, b, _, hr⟩ <;>
        subst hr <;> rfl
    exact ⟨hv, hv ▸ h⟩
  · omega
  · omega

/-- Witness of C6 (amended): the scenario store, whose `vmas` is 1: it is still
non-negative after an open, after a close, and after a fault on page index 0. -/
theorem C6_vmas_nonneg_witness :
    0 ≤ (scullv_vma_open scenario).dev.vmas.val ∧
    0 ≤ (scullv_vma_close scenario).dev.vmas.val ∧
    ∃ r, scullv_vma_fault scenario_page scenario { pgoff := 0, page := none } = some r ∧
      0 ≤ r.state.dev.vmas.val :=
  ⟨(C6_vmas_nonneg scenario_page scenario { vm_ops := none, vm_flags := 0 }
      { pgoff := 0, page := none } (by decide)).2.2.2.1.mpr (by decide),
   (C6_vmas_nonneg scenario_page scenario { vm_ops := none, vm_flags := 0 }
      { pgoff := 0, page := none } (by decide)).2.2.2.2.2.2.2.mpr (by decide),
   match (C6_vmas_nonneg scenario_page scenario { vm_ops := none, vm_flags := 0 }
      { pgoff := 0, page := none } (by decide)).2.2.2.2.1 (by decide) with
   | ⟨r, hr⟩ =>
     ⟨r, hr, ((C6_vmas_nonneg scenario_page scenario { vm_ops := none, vm_flags := 0 }
       { pgoff := 0, page := none } (by decide)).2.2.2.2.2.1 r hr).2⟩⟩

/-! ## The semaphore and the exit paths -/

/-- C7: on every exit path of `scullv_vma_fault` (out of range, hole,
resolved) the events of the call are `down` first, `up` last, and no other
`down` or `up` in between, so the semaphore is acquired exactly once before
`size` and the chain are read and released exactly once before the return; the
counter of the semaphore after the call equals its value before the call.
On a state whose data arrays have `qset` slots the call does return. -/
theorem C7_semaphore_balanced (vmalloc_to_page : Nat → Nat) (s : State) (vmf : vm_fault) :
    (s.wf = true → ∃ r, scullv_vma_fault vmalloc_to_page s vmf = some r) ∧
    (∀ r, scullv_vma_fault vmalloc_to_page s vmf = some r →
      r.state.dev.sem = s.dev.sem ∧
      ∃ mid, r.trace = Event.down :: (mid ++ [Event.up]) ∧
        Event.down ∉ mid ∧ Event.up ∉ mid) := by
  refine ⟨fault_returns vmalloc_to_page s vmf, ?_⟩
  intro r hr
  obtain ⟨mid, hmid, hd, hu, hg⟩ := fault_events_tail s vmf
  rcases fault_cases vmalloc_to_page s vmf r hr with ⟨_, h⟩ | ⟨_, h⟩ | ⟨_, b, _, h⟩
  · subst h
    exact ⟨rfl, [Event.printk, Event.read_size], rfl, by decide, by decide⟩
  · subst h
    exact ⟨rfl, mid, by simp [hmid], hd, hu⟩
  · subst h
    refine ⟨rfl, mid ++ [Event.get_page (vmalloc_to_page b)], by simp [hmid], ?_, ?_⟩
    · simp [hd]
    · simp [hu]

/-- Witness of C7: the scenario store is well formed, so the call on page
index 4 returns. -/
theorem C7_semaphore_balanced_witness :
    ∃ r, scullv_vma_fault scenario_page scenario { pgoff := 4, page := none } = some r ∧
      r.state.dev.sem = scenario.dev.sem :=
  match (C7_semaphore_balanced scenario_page scenario { pgoff := 4, page := none }).1
      (by decide) with
  | ⟨r, hr⟩ =>
    ⟨r, hr, ((C7_semaphore_balanced scenario_page scenario
      { pgoff := 4, page := none }).2 r hr).1⟩

/-! ## The index of the handler -/

/-- C8, counterexample: the handler of the scenario store given the byte
offsets `5 * 4096` and `2 * 4096` in `vmf->pgoff` takes the out-of-range path
for both (they are not below `size = 6`): the first is not `Resolved`, the
second is not `Hole`. -/
theorem C8_counterexample :
    (scullv_vma_fault scenario_page scenario { pgoff := 5 * 4096, page := none }).map
        FaultReturn.outcome = some FaultResult.OutOfRange ∧
    (scullv_vma_fault scenario_page scenario { pgoff := 5 * 4096, page := none }).map
        FaultReturn.result = some VM_FAULT_SIGBUS ∧
    (scullv_vma_fault scenario_page scenario { pgoff := 5 * 4096, page := none }).map
        FaultReturn.outcome ≠ some FaultResult.Resolved ∧
    (scullv_vma_fault scenario_page scenario { pgoff := 2 * 4096, page := none }).map
        FaultReturn.outcome = some FaultResult.OutOfRange ∧
    (scullv_vma_fault scenario_page scenario { pgoff := 2 * 4096, page := none }).map
        FaultReturn.outcome ≠ some FaultResult.Hole := by
  decide

/-- C8, amended: the index that is range-checked and resolved is the page
offset `vmf->pgoff` as given, with no division: the call is out of range when
`size <= pgoff`, and otherwise its outcome is decided by the slot that the
specification locates at index `pgoff` (`Hole` when it is null, `Resolved`
with the page of the block when it is not). On the scenario store the page
offsets 0, 2, 5 and 6 give `Resolved`, `Hole`, `Resolved` and `OutOfRange`. -/
theorem C8_index_is_pgoff :
    (∀ (vmalloc_to_page : Nat → Nat) (s : State) (vmf : vm_fault),
      (s.dev.size ≤ vmf.pgoff →
        (scullv_vma_fault vmalloc_to_page s vmf).map FaultReturn.outcome =
          some FaultResult.OutOfRange) ∧
      (vmf.pgoff < s.dev.size → ∀ b, locate_spec s.chain s.dev.qset vmf.pgoff = some b →
        (scullv_vma_fault vmalloc_to_page s vmf).map FaultReturn.outcome =
          some (if b = 0 then FaultResult.Hole else FaultResult.Resolved) ∧
        (b ≠ 0 → (scullv_vma_fault vmalloc_to_page s vmf).map (fun r => r.vmf.page) =
          some (some (vmalloc_to_page b))))) ∧
    (scullv_vma_fault scenario_page scenario { pgoff := 0, page := none }).map
        FaultReturn.outcome = some FaultResult.Resolved ∧
    (scullv_vma_fault scenario_page scenario { pgoff := 2, page := none }).map
        FaultReturn.outcome = some FaultResult.Hole ∧
    (scullv_vma_fault scenario_page scenario { pgoff := 5, page := none }).map
        FaultReturn.outcome = some FaultResult.Resolved ∧
    (scullv_vma_fault scenario_page scenario { pgoff := 6, page := none }).map
        FaultReturn.outcome = some FaultResult.OutOfRange := by
  refine ⟨?_, by decide, by decide, by decide, by decide⟩
  intro vtp s vmf
  constructor
  · intro h
    rw [fault_out_of_range vtp s vmf h]
    simp [FaultReturn.outcome, VM_FAULT_SIGBUS]
  · intro hi b hb
    have hread := (fault_read s vmf).trans hb
    by_cases hb0 : b = 0
    · subst hb0
      rw [fault_null vtp s vmf hi hread]
      refine ⟨?_, fun h => absurd rfl h⟩
      simp only [Option.map_some', if_true]
      rw [outcome_hole _ rfl (List.mem_append_left _ (read_qset_mem_events s vmf))]
    · rw [fault_block vtp s vmf b hi hread hb0]
      refine ⟨?_, fun _ => rfl⟩
      simp only [Option.map_some', if_neg hb0]
      rw [outcome_resolved _ rfl]

/-- Witness of C8 (amended): the general part at page offset 3 of the scenario
store, whose slot holds the block at `0x13000`. -/
theorem C8_index_is_pgoff_witness :
    (scullv_vma_fault scenario_page scenario { pgoff := 3, page := none }).map
        FaultReturn.outcome = some FaultResult.Resolved ∧
    (scullv_vma_fault scenario_page scenario { pgoff := 3, page := none }).map
        (fun r => r.vmf.page) = some (some (scenario_page 0x13000)) :=
  ⟨((C8_index_is_pgoff.1 scenario_page scenario { pgoff := 3, page := none }).2
      (by decide) 0x13000 (by decide)).1,
   ((C8_index_is_pgoff.1 scenario_page scenario { pgoff := 3, page := none }).2
      (by decide) 0x13000 (by decide)).2 (by decide)⟩

/-! ## The walk of the chain -/

/-- C9: for `qset > 0` the walk started at the head of a chain with index `i`
stops with `ptr` at segment number `i / qset` (the chain with its first
`i / qset` nodes dropped). When that segment exists, `ptr` is not null and the
reduced index is `i % qset`, which is below `qset`; when the chain has at most
`i / qset` segments, `ptr` is null. The block pointer then read is slot
`i % qset` of segment `i / qset` when that segment exists and has a data array,
and null otherwise; it is what the specification locates at index `i`. -/
theorem C9_walk_locates (chain : List scullv_dev) (qset i : Nat) (hq : 0 < qset) :
    (walk qset chain i).ptr = chain.drop (i / qset) ∧
    (i / qset < chain.length →
      (walk qset chain i).ptr.head? = chain[i / qset]? ∧ (walk qset chain i).ptr ≠ [] ∧
      (walk qset chain i).pgoff = i % qset ∧ (walk qset chain i).pgoff < qset) ∧
    (chain.length ≤ i / qset → (walk qset chain i).ptr = []) ∧
    (∀ seg arr, chain[i / qset]? = some seg → seg.data = some arr →
      read_pageptr (walk qset chain i).ptr (walk qset chain i).pgoff = arr[i % qset]?) ∧
    (∀ seg, chain[i / qset]? = some seg → seg.data = none →
      read_pageptr (walk qset chain i).ptr (walk qset chain i).pgoff = some 0) ∧
    (chain[i / qset]? = none →
      read_pageptr (walk qset chain i).ptr (walk qset chain i).pgoff = some 0) ∧
    read_pageptr (walk qset chain i).ptr (walk qset chain i).pgoff = locate_spec chain qset i := by
  have hq0 : qset ≠ 0 := Nat.pos_iff_ne_zero.mp hq
  have hloc := read_pageptr_walk qset chain i
  refine ⟨walk_ptr qset hq chain i, ?_, ?_, ?_, ?_, ?_, hloc⟩
  · intro hlen
    have hp := walk_pgoff qset hq chain i hlen
    refine ⟨?_, ?_, hp, ?_⟩
    · rw [walk_ptr qset hq, List.drop_eq_getElem_cons hlen, List.getElem?_eq_getElem hlen]
      rfl
    · rw [walk_ptr qset hq, List.drop_eq_getElem_cons hlen]
      exact List.cons_ne_nil _ _
    · rw [hp]
      exact Nat.mod_lt _ hq
  · intro hle
    rw [walk_ptr qset hq]
    exact List.drop_eq_nil_of_le hle
  · intro seg arr hseg hdata
    rw [hloc]
    unfold locate_spec
    rw [if_neg hq0, hseg]
    dsimp only
    rw [hdata]
  · intro seg hseg hdata
    rw [hloc]
    unfold locate_spec
    rw [if_neg hq0, hseg]
    dsimp only
    rw [hdata]
  · intro hseg
    rw [hloc]
    unfold locate_spec
    rw [if_neg hq0, hseg]

/-- Witness of C9: index 5 on the chain of the scenario store, `qset = 4`: the
walk stops at segment 1 with reduced index 1. -/
theorem C9_walk_locates_witness :
    (walk 4 scenario.chain 5).ptr = scenario.chain.drop (5 / 4) ∧
    (walk 4 scenario.chain 5).pgoff = 5 % 4 ∧
    read_pageptr (walk 4 scenario.chain 5).ptr (walk 4 scenario.chain 5).pgoff =
      locate_spec scenario.chain 4 5 :=
  ⟨(C9_walk_locates scenario.chain 4 5 (by decide)).1,
   ((C9_walk_locates scenario.chain 4 5 (by decide)).2.1 (by decide)).2.2.1,
   (C9_walk_locates scenario.chain 4 5 (by decide)).2.2.2.2.2.2⟩

/-- C10: the walk is a total function of a chain of length `L` (it
terminates for every `qset`, zero included, and every index) and makes at most
`L` hops; with `qset = 0` it makes exactly `L` hops and ends with `ptr` null.
In the handler the number of hops of a call is at most the length of the chain
of the device; when `qset = 0` the call returns `VM_FAULT_SIGBUS`, does not
set `vmf->page`, changes no reference count, and, when the index passed the
range check, made exactly as many hops as the chain has segments. -/
theorem C10_walk_bounded (vmalloc_to_page : Nat → Nat) (chain : List scullv_dev)
    (qset i : Nat) (s : State) (vmf : vm_fault) :
    hops (walk qset chain i).trace ≤ chain.length ∧
    (qset = 0 →
      hops (walk qset chain i).trace = chain.length ∧ (walk qset chain i).ptr = []) ∧
    (∀ r, scullv_vma_fault vmalloc_to_page s vmf = some r →
      hops r.trace ≤ s.chain.length) ∧
    (s.dev.qset = 0 →
      ∃ r, scullv_vma_fault vmalloc_to_page s vmf = some r ∧
        r.result = VM_FAULT_SIGBUS ∧ r.vmf = vmf ∧ r.state = s ∧
        (∀ p, r.state.count p = s.count p) ∧
        (vmf.pgoff < s.dev.size →
          hops r.trace = s.chain.length ∧ r.outcome = FaultResult.Hole)) := by
  refine ⟨walk_hops_le qset chain i, ?_, ?_, ?_⟩
  · intro h
    subst h
    exact ⟨(walk_zero chain i).2, (walk_zero chain i).1⟩
  · intro r hr
    rcases fault_cases vmalloc_to_page s vmf r hr with ⟨_, h⟩ | ⟨_, h⟩ | ⟨_, b, _, h⟩
    · subst h
      simp [hops]
    · subst h
      show hops (fault_events s vmf ++ [Event.up]) ≤ _
      rw [hops_fault_events s vmf _ (by decide)]
      exact hops_fault_walk_le s vmf
    · subst h
      show hops (fault_events s vmf ++ [Event.get_page (vmalloc_to_page b), Event.up]) ≤ _
      rw [hops_fault_events s vmf _ (by simp)]
      exact hops_fault_walk_le s vmf
  · intro hq
    by_cases hi : vmf.pgoff < s.dev.size
    · have hloc : locate_spec s.chain s.dev.qset vmf.pgoff = some 0 := by
        simp [locate_spec, hq]
      have hread := (fault_read s vmf).trans hloc
      refine ⟨_, fault_null vmalloc_to_page s vmf hi hread, rfl, rfl, rfl, fun _ => rfl, ?_⟩
      intro _
      constructor
      · show hops (fault_events s vmf ++ [Event.up]) = _
        rw [hops_fault_events s vmf _ (by decide)]
        exact hops_fault_walk_zero s vmf hq
      · exact outcome_hole _ rfl (List.mem_append_left _ (read_qset_mem_events s vmf))
    · exact ⟨_, fault_out_of_range vmalloc_to_page s vmf (Nat.le_of_not_lt hi), rfl, rfl, rfl,
        fun _ => rfl, fun h => absurd h hi⟩

/-- Witness of C10: the scenario store with `qset` set to 0, page index 3: the
call makes two hops, one per segment, and returns `VM_FAULT_SIGBUS`. -/
theorem C10_walk_bounded_witness :
    ∃ r, scullv_vma_fault scenario_page
        { scenario with dev := { scenario.dev with qset := 0 } }
        { pgoff := 3, page := none } = some r ∧
      r.result = VM_FAULT_SIGBUS ∧ r.vmf = { pgoff := 3, page := none } ∧
      r.state = { scenario with dev := { scenario.dev with qset := 0 } } ∧
      (∀ p, r.state.count p =
        ({ scenario with dev := { scenario.dev with qset := 0 } } : State).count p) ∧
      ((3 : Nat) < 6 → hops r.trace = 2 ∧ r.outcome = FaultResult.Hole) :=
  (C10_walk_bounded scenario_page scenario.chain 0 3
    { scenario with dev := { scenario.dev with qset := 0 } }
    { pgoff := 3, page := none }).2.2.2 rfl

end Scullv
